import Mathlib

/-!
Verification development for the video-metadata-extractor repository.

The definitions below are a shallow embedding of the TypeScript source:
* `src/hooks/useVideoMetadata.ts` — FFmpeg-backed metadata extraction
  (`extractMetadata`), stream export (`extractStream`), and the large-file
  download helper (`downloadLargeFile`);
* `src/hooks/useMP4BoxMetadata.ts` — MP4Box-backed probe and exports;
* `src/App.tsx` — the batch coordinator (queue, lock, settlement effects).

Strings are modelled as Lean `String`; JavaScript numbers appearing in the
relevant computations are modelled as `Nat`/`ℚ` (all values involved are
exact in the source paths under study).
-/

namespace VideoMeta

/-! ## String containment (JavaScript `String.prototype.includes`) -/

/-- Prefix test: `startsWithCk needle hay` asks whether `hay` start with `needle`?
Embeds the character-by-character prefix test underlying
JavaScript `includes`. -/
def startsWithCk : List Char → List Char → Bool
  | [], _ => true
  | _ :: _, [] => false
  | a :: as, b :: bs => a == b && startsWithCk as bs

/-- Containment test: `hasSub needle hay` asks whether `hay` contains `needle` as a contiguous
substring? -/
def hasSub (needle : List Char) : List Char → Bool
  | [] => startsWithCk needle []
  | c :: cs => startsWithCk needle (c :: cs) || hasSub needle cs

/-- JavaScript `hay.includes(needle)` on strings. -/
def strIncludes (hay needle : String) : Bool :=
  hasSub needle.data hay.data

/-! ## Error classification (`extractMetadata`, useVideoMetadata.ts:271-292)

`extractMetadata` joins the captured FFmpeg log lines with `\n` and throws,
in source order:
1. when no log lines were captured at all;
2. when the joined output contains one of the corrupted-input substrings;
3. when it contains `Decoder (codec ` together with `not found`;
4. when it does not contain `Stream #`.
-/

inductive ExtractErr where
  | emptyLogs
  | corrupted
  | missingDecoder
  | noStreams
  deriving DecidableEq, Repr

/-- The substring-based error classification applied to the joined log
output, in the source's order (useVideoMetadata.ts:279-292). Returns
`none` when none of the error checks fires and generic parsing proceeds. -/
def classify (logOutput : String) : Option ExtractErr :=
  if strIncludes logOutput "Invalid data found when processing input"
      || strIncludes logOutput "No such file or directory"
      || strIncludes logOutput "Operation not permitted" then
    some .corrupted
  else if strIncludes logOutput "Decoder (codec "
      && strIncludes logOutput "not found" then
    some .missingDecoder
  else if !(strIncludes logOutput "Stream #") then
    some .noStreams
  else
    none

/-- JavaScript `lines.join("\n")`. -/
def joinLines : List String → String
  | [] => ""
  | [l] => l
  | l :: ls => l ++ "\n" ++ joinLines ls

/-- The error decision of `extractMetadata`'s parsing stage
(useVideoMetadata.ts:271-292) on the captured log lines: `some e` when the
function throws before building the metadata record, `none` when parsing
proceeds and a metadata record is produced (no later step of the function
throws). -/
def parseOutcome (logs : List String) : Option ExtractErr :=
  if logs.isEmpty then some .emptyLogs
  else classify (joinLines logs)

/-! ## Metadata record construction (`extractMetadata`, useVideoMetadata.ts:294-411)

The pattern extractors of `extractMetadata` are JavaScript regex matches over
the joined log output. Their results are modelled here as the structured
outcomes of those matches: an `Option` per pattern, carrying the captured
groups already converted to numbers where the source applies
`parseInt`/`parseFloat`. `buildMetadata` is the translation of the
computation the source performs on those match results (lines 294-411). -/

/-- Outcome of the first-video-stream regex
`Stream.*Video: ([^,]+)[^,]*,.*?(\d+x\d+)[^,]*,.*?(\d+\.?\d*) fps`:
codec capture, the `WxH` resolution capture split by `parseInt`, and
`parseFloat` of the fps capture. -/
structure VideoMatch where
  codec : String
  width : Nat
  height : Nat
  fps : ℚ
  deriving DecidableEq

/-- Outcome of the duration regex
`Duration: (\d{2}):(\d{2}):(\d{2})\.(\d{2})`: the four two-digit captures. -/
structure DurMatch where
  hh : Nat
  mm : Nat
  ss : Nat
  cc : Nat
  deriving DecidableEq

/-- Outcome of the first-audio-stream regex
`Stream.*Audio: ([^,]+)[^,]*,.*?(\d+) Hz`: codec capture and the sample-rate
digits capture (kept as the captured digit string). -/
structure AudioMatch where
  codec : String
  sampleRate : String
  deriving DecidableEq

/-- One element of the subtitle-stream scan
(`Stream #\d+:\d+(?:\([^)]*\))?: Subtitle: ...`), with the per-match
extractions of useVideoMetadata.ts:348-372. -/
structure SubMatch where
  codec_name : String
  language : Option String
  isDefault : Bool
  forced : Bool
  index : Option Nat
  deriving DecidableEq

/-- A stream descriptor as assembled by `extractMetadata`. Fields absent
from a given kind of descriptor in the source object literal are `none`. -/
structure StreamDesc where
  codec_type : String
  codec_name : String
  width : Option Nat := none
  height : Option Nat := none
  pix_fmt : Option String := none
  bit_rate : Option String := none
  channels : Option Nat := none
  sample_rate : Option String := none
  language : Option String := none
  isDefault : Option Bool := none
  forced : Option Bool := none
  index : Option Nat := none
  deriving DecidableEq

/-- The `format` record of the produced metadata. The source stores `fps` as
the printed JavaScript number; it is kept numeric (`ℚ`) here. -/
structure FormatRec where
  filename : String
  size : String
  format_name : String
  duration : String
  bit_rate : String
  fps : ℚ
  movietimems : String
  movieframes : String
  deriving DecidableEq

structure VideoMetadata where
  format : FormatRec
  streams : List StreamDesc
  deriving DecidableEq

/-- JavaScript `Math.round` on the (non-negative, exact) rationals arising
here: `⌊x + 1/2⌋`. -/
def jsRound (q : ℚ) : ℤ := round q

/-- JavaScript `s.split('.')` at the character level: splitting an empty
string yields `[""]`, a trailing dot yields a trailing empty component. -/
def splitDot : List Char → List (List Char)
  | [] => [[]]
  | c :: cs =>
    let r := splitDot cs
    if c = '.' then [] :: r
    else
      match r with
      | [] => [[c]]
      | h :: t => (c :: h) :: t

/-- JavaScript `toLowerCase` on the ASCII strings involved. -/
def lowerStr (cs : List Char) : List Char :=
  cs.map Char.toLower

/-- Embedding of `filename.split('.').pop()?.toLowerCase()`: the last dot-separated
component, lowercased (empty when the name ends in a dot, mirroring the
falsy check in the source). -/
def lastExt (name : String) : String :=
  ⟨lowerStr ((splitDot name.data).getLastD [])⟩

/-- Translation of `getFormatFromFileName` (useVideoMetadata.ts:7-10):
`filename.split('.').pop()?.toLowerCase()`, with `'unknown'` for an empty
extension. -/
def getFormatFromFileName (filename : String) : String :=
  let e := lastExt filename
  if e = "" then "unknown" else e

/-- The subtitle descriptor pushed for each subtitle regex match
(useVideoMetadata.ts:365-372). -/
def subDesc (s : SubMatch) : StreamDesc :=
  { codec_type := "subtitle"
    codec_name := s.codec_name
    language := s.language
    isDefault := some s.isDefault
    forced := some s.forced
    index := s.index }

/-- Translation of useVideoMetadata.ts:294-411: given the outcomes of the
five pattern extractions, build the metadata record exactly as the source
does, including every sentinel and default. -/
def buildMetadata (filename : String) (fileSize : Nat)
    (videoM : Option VideoMatch) (durM : Option DurMatch)
    (bitrateKbM : Option Nat) (audioM : Option AudioMatch)
    (audioBpsM : Option Nat) (subs : List SubMatch) : VideoMetadata :=
  let fps : ℚ := match videoM with
    | some v => v.fps
    | none => 25
  let durFields : String × String × String :=
    match durM with
    | none => ("unknown", "unknown", "unknown")
    | some d =>
      let totalSeconds := d.hh * 3600 + d.mm * 60 + d.ss
      let totalMilliseconds := totalSeconds * 1000 + d.cc * 10
      let totalFrames := jsRound ((totalMilliseconds : ℚ) / 1000 * fps)
      (toString totalSeconds, toString totalMilliseconds, toString totalFrames)
  let bitrate : String :=
    match bitrateKbM with
    | some kb => toString (kb * 1000)
    | none => "unknown"
  let audioCodec : String :=
    match audioM with
    | some a => a.codec
    | none => "unknown"
  let sampleRate : String :=
    match audioM with
    | some a => a.sampleRate
    | none => "48000"
  let audioBitrate : String :=
    match audioBpsM with
    | some bps => toString (jsRound ((bps : ℚ) / 1000))
    | none => "128"
  { format :=
      { filename := filename
        size := toString fileSize
        format_name := getFormatFromFileName filename
        duration := durFields.1
        bit_rate := bitrate
        fps := fps
        movietimems := durFields.2.1
        movieframes := durFields.2.2 }
    streams :=
      { codec_type := "video"
        codec_name := match videoM with | some v => v.codec | none => "unknown"
        width := some (match videoM with | some v => v.width | none => 1280)
        height := some (match videoM with | some v => v.height | none => 720)
        pix_fmt := some "yuv420p"
        bit_rate := some "1500000"
        index := some 0 } ::
      { codec_type := "audio"
        codec_name := audioCodec
        channels := some 2
        sample_rate := some sampleRate
        bit_rate := some (audioBitrate ++ "000")
        index := some 1 } ::
      subs.map subDesc }

/-! ## Input validation (`extractMetadata`, useVideoMetadata.ts:211-222) -/

def validExtensions : List String :=
  ["mp4", "avi", "mov", "mkv", "wmv", "flv", "webm", "3gp", "3g2", "f4v",
   "m4v", "ogv", "mp3", "wav", "aac"]

/-- JavaScript `array.join(', ')`. -/
def joinCommaSp : List String → String
  | [] => ""
  | [s] => s
  | s :: ss => s ++ ", " ++ joinCommaSp ss

/-- The validation performed at the top of `extractMetadata`
(useVideoMetadata.ts:211-222): `some errorMessage` when the file is
rejected before any backend work, `none` otherwise. -/
def validateFile (name : String) (size : Nat) : Option String :=
  if size = 0 then
    some "File appears to be empty"
  else if lastExt name = "" || !(validExtensions.contains (lastExt name)) then
    some ("Unsupported file format: "
      ++ (if lastExt name = "" then "unknown" else lastExt name)
      ++ ". Supported formats: " ++ joinCommaSp validExtensions)
  else
    none

/-! ## BatchCoordinator (src/App.tsx)

The coordinator state in `App` is: the `fileMetadataList` (one `BatchItem`
per selected file), the `processingQueue`, `currentlyProcessing`,
`isProcessingLocked`, `isLoaded`, and the aggregate `batchProgress`.
Files are identified here by their position in the initial selection;
`File` objects in the source are distinct references, so the identity
comparisons `item.file === nextFile` are index equality. -/

/-- One entry of `fileMetadataList` (App.tsx:9-15). `hasMetadata` stands for
`metadata !== null`. -/
structure BatchItem where
  hasMetadata : Bool
  isProcessing : Bool
  error : Option String
  deriving DecidableEq

/-- The coordinator's state variables (App.tsx:27-40). -/
structure CoordState where
  items : List BatchItem
  queue : List Nat
  current : Option Nat
  locked : Bool
  loaded : Bool
  progressPct : Nat
  deriving DecidableEq

/-- Embedding of `prev.map(item => item.file === f ? upd(item) : item)` with files
identified by index. -/
def updateAt (l : List BatchItem) (i : Nat) (f : BatchItem → BatchItem) :
    List BatchItem :=
  l.mapIdx fun j a => if j = i then f a else a

/-- Embedding of `updated.filter(item => item.metadata || item.error).length`
(App.tsx:103, 170, 218). -/
def completedCount (items : List BatchItem) : Nat :=
  (items.filter fun it => it.hasMetadata || it.error.isSome).length

/-- Embedding of `Math.round((completedFiles / totalFiles) * 100)` guarded by
`totalFiles > 0` (App.tsx:105, 171, 219). -/
def overallProgress (completed total : Nat) : Nat :=
  if total = 0 then 0 else (completed * 200 + total) / (2 * total)

/-- The state of a fresh batch of `n` files after `onMultipleFilesSelect`
(App.tsx:56-81): all items pending, the queue holding every file in
selection order, nothing processing, lock free. -/
def initState (n : Nat) : CoordState :=
  { items := List.replicate n ⟨false, false, none⟩
    queue := List.range n
    current := none
    locked := false
    loaded := true
    progressPct := 0 }

/-- The transitions of the coordinator, one constructor per effect of
App.tsx.

* `dispatch` — the queue-processing effect (App.tsx:84-148): guarded on a
  non-empty queue, no file currently processing, a free lock and a loaded
  backend; locks, takes the queue head, marks it processing, and recomputes
  the aggregate progress from the pre-update item list (App.tsx:102-105).
* `settleSuccess` — the metadata effect (App.tsx:151-193): records the
  metadata on the current item, clears its processing flag, and recomputes
  progress from the updated list. The lock is kept; its release is the
  separate delayed `unlock` step (App.tsx:196-200).
* `settleError` — the error effect (App.tsx:205-241): as above but
  recording the error message.
* `unlock` — the delayed release scheduled by either settlement effect
  (App.tsx:196-200, 247-251): clears `currentlyProcessing` and the lock
  once the current item has settled.
* `clearAll` — the `Clear All` action (App.tsx:257-270). -/
inductive Step : CoordState → CoordState → Prop where
  | dispatch (s : CoordState) (i : Nat) (rest : List Nat)
      (hq : s.queue = i :: rest)
      (hc : s.current = none)
      (hl : s.locked = false)
      (hld : s.loaded = true) :
      Step s { s with
        queue := rest
        current := some i
        locked := true
        progressPct := overallProgress (completedCount s.items) s.items.length
        items := updateAt s.items i
          fun it => { it with isProcessing := true, error := none } }
  | settleSuccess (s : CoordState) (i : Nat)
      (hc : s.current = some i) :
      Step s { s with
        items := updateAt s.items i
          (fun it => { it with hasMetadata := true, isProcessing := false })
        progressPct := overallProgress
          (completedCount (updateAt s.items i
            (fun it => { it with hasMetadata := true, isProcessing := false })))
          s.items.length }
  | settleError (s : CoordState) (i : Nat) (msg : String)
      (hc : s.current = some i) :
      Step s { s with
        items := updateAt s.items i
          (fun it => { it with error := some msg, isProcessing := false })
        progressPct := overallProgress
          (completedCount (updateAt s.items i
            (fun it => { it with error := some msg, isProcessing := false })))
          s.items.length }
  | unlock (s : CoordState) (i : Nat)
      (hc : s.current = some i)
      (hset : ∀ it, s.items.get? i = some it → it.isProcessing = false) :
      Step s { s with current := none, locked := false }
  | clearAll (s : CoordState) :
      Step s { s with
        items := []
        queue := []
        current := none
        locked := false
        progressPct := 0 }

/-- States the coordinator can reach from a fresh batch of `n` files. -/
def Reachable (n : Nat) (s : CoordState) : Prop :=
  Relation.ReflTransGen Step (initState n) s

/-! ### The 60-second processing timeout (App.tsx:128-146)

The admission effect schedules, inside its own closure, a callback guarded
by

`currentlyProcessing === fileBeingProcessed && isProcessingLocked`.

Both names are the `useState` constants of the render whose effect created
the callback — the very render in which the admission guard
`!currentlyProcessing && !isProcessingLocked` held. The later
`setCurrentlyProcessing`/`setIsProcessingLocked` calls produce new renders
with new constants and do not change the values captured by this closure.
`timeoutGuard` is that captured test. -/

/-- The captured condition of the 60-second timeout callback
(App.tsx:135), evaluated over the closure's state values. -/
def timeoutGuard (captured : CoordState) (fileBeingProcessed : Nat) : Bool :=
  captured.current == some fileBeingProcessed && captured.locked

/-- The admission guard of the queue-processing effect (App.tsx:87). -/
def admissionGuard (s : CoordState) : Bool :=
  !s.queue.isEmpty && s.current == none && !s.locked && s.loaded

/-! ### Deterministic batch run

The per-file outcome of `handleFileSelect` (success with metadata, or an
error surfaced through the error state) is abstracted as an `Outcome`; the
driver below runs dispatch → settle → unlock for each outcome in order, the
schedule the effects of App.tsx produce when each file settles before the
60-second deadline. -/

inductive Outcome where
  | success
  | failure (msg : String)
  deriving DecidableEq

/-- Total-function form of the `dispatch` transition (identity when the guard
fails). -/
def doDispatch (s : CoordState) : CoordState :=
  match s.queue with
  | [] => s
  | i :: rest =>
    if s.current = none ∧ s.locked = false ∧ s.loaded = true then
      { s with
        queue := rest
        current := some i
        locked := true
        progressPct := overallProgress (completedCount s.items) s.items.length
        items := updateAt s.items i
          (fun it => { it with isProcessing := true, error := none }) }
    else s

/-- Total-function form of the settlement transitions. -/
def doSettle (s : CoordState) (o : Outcome) : CoordState :=
  match s.current with
  | none => s
  | some i =>
    match o with
    | .success =>
      let items := updateAt s.items i
        fun it => { it with hasMetadata := true, isProcessing := false }
      { s with
        items := items
        progressPct := overallProgress (completedCount items) s.items.length }
    | .failure msg =>
      let items := updateAt s.items i
        fun it => { it with error := some msg, isProcessing := false }
      { s with
        items := items
        progressPct := overallProgress (completedCount items) s.items.length }

/-- Total-function form of the delayed unlock. -/
def doUnlock (s : CoordState) : CoordState :=
  { s with current := none, locked := false }

/-- One full dispatch → settle → unlock round for the next queued file. -/
def processOne (s : CoordState) (o : Outcome) : CoordState :=
  doUnlock (doSettle (doDispatch s) o)

/-- Drive the whole batch, one outcome per queued file. -/
def runBatch (s : CoordState) (outs : List Outcome) : CoordState :=
  outs.foldl processOne s

/-- The outcome `extractMetadata` produces for a file, as far as the
validation layer decides it: a validation error fails the file, otherwise
the backend run succeeds. -/
def outcomeFor (name : String) (size : Nat) : Outcome :=
  match validateFile name size with
  | some msg => .failure msg
  | none => .success

/-! ## Byte-range selection for the probe operation

* Box backend (`extractMetadataWithMP4Box`, useMP4BoxMetadata.ts:271-274):
  `fileSize > 50MB ? file.slice(0, 50MB) : file`.
* Text backend (`extractMetadata`, useVideoMetadata.ts:224-238): mp4/m4v
  files are passed whole (`processMP4File` returns the file unchanged,
  useVideoMetadata.ts:200-202); other files whole when ≤ 32MB, else
  `file.slice(0, 32MB)`.

Backend routing (`useSmartMetadata.ts:15-20`): mp4/mov/m4v/3gp/3g2/f4v go
to the box backend, everything else to the text backend.

A byte range is `(start, stop)` with `slice` semantics: the bytes
`start ≤ k < stop`. -/

def MP4BOX_PROBE_CHUNK : Nat := 50 * 1024 * 1024

def FFMPEG_PROBE_CHUNK : Nat := 32 * 1024 * 1024

/-- Ranges read by the box-backend probe (useMP4BoxMetadata.ts:271-274). -/
def mp4boxProbeSelection (fileSize : Nat) : List (Nat × Nat) :=
  if fileSize > MP4BOX_PROBE_CHUNK then [(0, MP4BOX_PROBE_CHUNK)]
  else [(0, fileSize)]

/-- Ranges read by the text-backend probe (useVideoMetadata.ts:224-238),
after validation, keyed on the lowercased extension. -/
def ffmpegProbeSelection (extension : String) (fileSize : Nat) :
    List (Nat × Nat) :=
  if extension = "mp4" ∨ extension = "m4v" then [(0, fileSize)]
  else if fileSize ≤ FFMPEG_PROBE_CHUNK then [(0, fileSize)]
  else [(0, FFMPEG_PROBE_CHUNK)]

/-- Translation of `shouldUseMp4Box` (useSmartMetadata.ts:15-20). -/
def shouldUseMp4Box (extension : String) : Bool :=
  extension = "mp4" || extension = "mov" || extension = "m4v"
    || extension = "3gp" || extension = "3g2" || extension = "f4v"

/-- The probe ranges actually read for a file, after backend routing. -/
def probeSelection (extension : String) (fileSize : Nat) : List (Nat × Nat) :=
  if shouldUseMp4Box extension then mp4boxProbeSelection fileSize
  else ffmpegProbeSelection extension fileSize

/-! ## ArtifactDownloader (`downloadLargeFile`, useVideoMetadata.ts:102-167)

and the delivery-threshold check of `extractStream`
(useVideoMetadata.ts:814-826). -/

def CHUNK_SIZE : Nat := 100 * 1024 * 1024

def MAX_BLOB_SIZE : Nat := 2 * 1024 * 1024 * 1024

inductive DeliveryMode where
  | direct
  | chunked
  deriving DecidableEq

/-- The branch inside `downloadLargeFile` itself (useVideoMetadata.ts:109): lengths
strictly below 2 GiB are delivered as a single blob, the rest through the
pull-based stream. -/
def deliveryMode (len : Nat) : DeliveryMode :=
  if len < MAX_BLOB_SIZE then .direct else .chunked

/-- The branch in `extractStream` (useVideoMetadata.ts:816): `≥ 2 GiB`
goes to `downloadLargeFile` (which then streams), below goes to the inline
single-blob download. -/
def extractStreamDeliveryMode (len : Nat) : DeliveryMode :=
  if len ≥ MAX_BLOB_SIZE then .chunked else .direct

/-- The chunk lengths emitted by the stream's `pump` loop
(useVideoMetadata.ts:130-147): starting at offset 0, each round enqueues
`data.slice(offset, min(offset + CHUNK_SIZE, data.length))` and advances by
its length until the offset reaches the end. Structured on a fuel that
bounds the number of rounds (each round but the last consumes exactly
`CHUNK_SIZE` bytes, so `len / CHUNK_SIZE + 1` rounds always suffice). -/
def pumpChunks : Nat → Nat → List Nat
  | 0, _ => []
  | fuel + 1, rem =>
    if rem = 0 then []
    else
      let c := min CHUNK_SIZE rem
      c :: pumpChunks fuel (rem - c)

/-- Chunk lengths emitted when streaming an artifact of `len` bytes. -/
def chunkLens (len : Nat) : List Nat :=
  pumpChunks (len / CHUNK_SIZE + 1) len

/-! ## Stream export with transcoding fallback
(`extractStream`, useVideoMetadata.ts:742-801) -/

inductive StreamType where
  | video
  | audio
  deriving DecidableEq

/-- The stream-copy invocation (useVideoMetadata.ts:750-765); both branches
of the source pass identical arguments. -/
def copyArgs (streamIndex : Nat) (outputFilename : String) : List String :=
  ["-i", "input.video", "-map", "0:" ++ toString streamIndex,
   "-c", "copy", "-avoid_negative_ts", "make_zero", outputFilename]

/-- The fallback re-encode invocation (useVideoMetadata.ts:779-798):
constant-quality H.264 for video, fixed-bitrate AAC for audio. -/
def encodeArgs (t : StreamType) (streamIndex : Nat) (outputFilename : String) :
    List String :=
  match t with
  | .video =>
    ["-i", "input.video", "-map", "0:" ++ toString streamIndex,
     "-c:v", "libx264", "-preset", "fast", "-crf", "23", outputFilename]
  | .audio =>
    ["-i", "input.video", "-map", "0:" ++ toString streamIndex,
     "-c:a", "aac", "-b:a", "128k", outputFilename]

inductive ExportResult where
  | delivered
  | failed
  deriving DecidableEq

/-- Control flow of `extractStream`'s extraction section
(useVideoMetadata.ts:742-801), over an oracle telling which backend
invocations raise: try the copy arguments; on failure run the single
re-encode attempt; a failure of that one propagates to the outer error
handler (no further attempt). Returns the `exec` argument lists issued, in
order, with the outcome. -/
def runStreamExport (t : StreamType) (streamIndex : Nat)
    (outputFilename : String) (execRaises : List String → Bool) :
    List (List String) × ExportResult :=
  let a1 := copyArgs streamIndex outputFilename
  if execRaises a1 = false then ([a1], .delivered)
  else
    let a2 := encodeArgs t streamIndex outputFilename
    if execRaises a2 = false then ([a1, a2], .delivered)
    else ([a1, a2], .failed)

/-! ## MP4Box track indexing (useMP4BoxMetadata.ts)

* The metadata listing (`extractMetadataWithMP4Box`, lines 218-262) maps
  `info.tracks.forEach((track, index) => ...)` and stores `index` — the
  track's position among **all** enumerated tracks — on every descriptor,
  subtitle descriptors included (lines 251-261).
* `extractSubtitle` (lines 346-368) filters
  `tracks.filter(track => track.type === 'text')` and selects
  `textTracks[streamIndex]` — a position within the **filtered** list. -/

/-- An MP4Box-enumerated track: its declared id and type
(`video` / `audio` / `text`). -/
structure MTrack where
  id : Nat
  type : String
  deriving DecidableEq

/-- The filtered text-track list of `extractSubtitle`
(useMP4BoxMetadata.ts:351). -/
def textTracks (tracks : List MTrack) : List MTrack :=
  tracks.filter fun t => t.type = "text"

/-- The track `extractSubtitle` addresses for a given `streamIndex`
(useMP4BoxMetadata.ts:352): `textTracks[streamIndex]`. -/
def exportSubtitleSelect (tracks : List MTrack) (streamIndex : Nat) :
    Option MTrack :=
  (textTracks tracks).get? streamIndex

/-- The indices the metadata listing assigns to subtitle descriptors
(useMP4BoxMetadata.ts:251-261): the positions of text tracks among all
enumerated tracks. -/
def listedSubtitleIndices (tracks : List MTrack) : List Nat :=
  (tracks.enum.filter fun p => p.2.type = "text").map Prod.fst

end VideoMeta

namespace VideoMeta

/-! ## Coordinator invariant -/

theorem updateAt_get? (l : List BatchItem) (i : Nat) (f : BatchItem → BatchItem)
    (j : Nat) :
    (updateAt l i f).get? j = (l.get? j).map fun a => if j = i then f a else a := by
  rcases Nat.lt_or_ge j l.length with h | h
  · have h' : j < (updateAt l i f).length := by
      simpa [updateAt] using h
    rw [List.get?_eq_get h, List.get?_eq_get h']
    simp [updateAt, List.get_mapIdx]
  · have h' : (updateAt l i f).length ≤ j := by
      simpa [updateAt] using h
    rw [List.get?_eq_none.2 h, List.get?_eq_none.2 h']
    rfl

/-- The inductive invariant of the coordinator: the lock is held exactly
while a file is current, and any item whose processing flag is set is the
current one. -/
def Inv (s : CoordState) : Prop :=
  s.locked = s.current.isSome ∧
  ∀ j it, s.items.get? j = some it → it.isProcessing = true → s.current = some j

theorem inv_init (n : Nat) : Inv (initState n) := by
  constructor
  · rfl
  · intro j it hget hproc
    have hmem : it ∈ List.replicate n (⟨false, false, none⟩ : BatchItem) :=
      List.get?_mem hget
    have := List.eq_of_mem_replicate hmem
    subst this
    simp at hproc

theorem inv_step {s s' : CoordState} (hinv : Inv s) (hstep : Step s s') :
    Inv s' := by
  obtain ⟨hlock, hproc⟩ := hinv
  cases hstep with
  | dispatch i rest hq hc hl hld =>
    refine ⟨rfl, ?_⟩
    intro j it hget hp
    rw [updateAt_get?] at hget
    rcases hj : s.items.get? j with _ | a
    · rw [hj] at hget; exact absurd hget (by simp)
    · rw [hj] at hget
      simp only [Option.map_some'] at hget
      by_cases hji : j = i
      · simp [hji]
      · rw [if_neg hji] at hget
        have hpa : a.isProcessing = true := by
          rw [Option.some.inj hget]; exact hp
        have := hproc j a hj hpa
        rw [hc] at this
        exact absurd this (by simp)
  | settleSuccess i hc =>
    refine ⟨hlock, ?_⟩
    intro j it hget hp
    rw [updateAt_get?] at hget
    rcases hj : s.items.get? j with _ | a
    · rw [hj] at hget; exact absurd hget (by simp)
    · rw [hj] at hget
      simp only [Option.map_some'] at hget
      by_cases hji : j = i
      · rw [if_pos hji] at hget
        have : it.isProcessing = false := by
          rw [← Option.some.inj hget]
        rw [this] at hp
        exact absurd hp (by simp)
      · rw [if_neg hji] at hget
        have hpa : a.isProcessing = true := by
          rw [Option.some.inj hget]; exact hp
        exact hproc j a hj hpa
  | settleError i msg hc =>
    refine ⟨hlock, ?_⟩
    intro j it hget hp
    rw [updateAt_get?] at hget
    rcases hj : s.items.get? j with _ | a
    · rw [hj] at hget; exact absurd hget (by simp)
    · rw [hj] at hget
      simp only [Option.map_some'] at hget
      by_cases hji : j = i
      · rw [if_pos hji] at hget
        have : it.isProcessing = false := by
          rw [← Option.some.inj hget]
        rw [this] at hp
        exact absurd hp (by simp)
      · rw [if_neg hji] at hget
        have hpa : a.isProcessing = true := by
          rw [Option.some.inj hget]; exact hp
        exact hproc j a hj hpa
  | unlock i hc hset =>
    refine ⟨rfl, ?_⟩
    intro j it hget hp
    have hcur := hproc j it hget hp
    rw [hc] at hcur
    obtain rfl : i = j := by
      simpa using hcur
    exact absurd hp (by simp [hset it hget])
  | clearAll =>
    refine ⟨rfl, ?_⟩
    intro j it hget hp
    exact absurd hget (by simp)

theorem inv_reachable {n : Nat} {s : CoordState} (h : Reachable n s) : Inv s := by
  induction h with
  | refl => exact inv_init n
  | tail _ hstep ih => exact inv_step ih hstep

/-- C1. For every batch of N ≥ 2 queued files, in every state the
coordinator can reach, no two distinct items carry the `isProcessing` flag
simultaneously; and any step that makes a file current (starts it) is only
possible from a state whose queue is non-empty, in which no item is
processing, the lock is free and the backend is loaded. -/
theorem batch_single_flight (n : Nat) (hn : 2 ≤ n) (s : CoordState)
    (hs : Reachable n s) :
    (∀ j k it it', s.items.get? j = some it → s.items.get? k = some it' →
        it.isProcessing = true → it'.isProcessing = true → j = k) ∧
    (∀ s', Step s s' → s.current = none → s'.current.isSome →
        s.queue ≠ [] ∧ s.locked = false ∧ s.loaded = true ∧
        ∀ j it, s.items.get? j = some it → it.isProcessing = false) := by
  obtain ⟨hlock, hproc⟩ := inv_reachable hs
  constructor
  · intro j k it it' hj hk hpj hpk
    have h1 := hproc j it hj hpj
    have h2 := hproc k it' hk hpk
    rw [h1] at h2
    exact Option.some.inj h2
  · intro s' hstep hcur hcur'
    have hnone : ∀ j it, s.items.get? j = some it → it.isProcessing = false := by
      intro j it hj
      by_contra hp
      have := hproc j it hj (by revert hp; cases it.isProcessing <;> simp)
      rw [hcur] at this
      exact absurd this (by simp)
    cases hstep with
    | dispatch i rest hq hc hl hld =>
      exact ⟨by rw [hq]; simp, hl, hld, hnone⟩
    | settleSuccess i hc => rw [hcur] at hc; exact absurd hc (by simp)
    | settleError i msg hc => rw [hcur] at hc; exact absurd hc (by simp)
    | unlock i hc hset => rw [hcur] at hc; exact absurd hc (by simp)
    | clearAll => exact absurd hcur' (by simp)

/-- Witness for C1: instantiated at a fresh batch of two files. -/
theorem batch_single_flight_witness :
    2 ≤ 2 ∧
    ((∀ j k it it', (initState 2).items.get? j = some it →
        (initState 2).items.get? k = some it' →
        it.isProcessing = true → it'.isProcessing = true → j = k) ∧
     (∀ s', Step (initState 2) s' → (initState 2).current = none →
        s'.current.isSome →
        (initState 2).queue ≠ [] ∧ (initState 2).locked = false ∧
        (initState 2).loaded = true ∧
        ∀ j it, (initState 2).items.get? j = some it →
          it.isProcessing = false)) :=
  ⟨by decide,
   batch_single_flight 2 (by decide) (initState 2) Relation.ReflTransGen.refl⟩

/-- C2. The 60-second timeout callback scheduled by the admission effect
can never fire: its guard compares the `currentlyProcessing` and
`isProcessingLocked` values captured by the closure of the very render in
which the admission guard held — where `currentlyProcessing` is `null` and
`isProcessingLocked` is `false` — so the captured condition is false for
every file, and the forced `TimedOut` transition the source intends
(App.tsx:133-145, "Add a timeout to prevent processing from getting
stuck") is unreachable. -/
theorem timeout_callback_never_fires (s : CoordState) (fileBeingProcessed : Nat)
    (h : admissionGuard s = true) :
    timeoutGuard s fileBeingProcessed = false := by
  have hc : s.current = none := by
    revert h
    unfold admissionGuard
    cases hcur : s.current <;> simp
  unfold timeoutGuard
  rw [hc]
  simp

/-- Witness for C2: the admission guard holds in a fresh one-file batch, and
the timeout guard captured there is false. -/
theorem timeout_callback_never_fires_witness :
    admissionGuard (initState 1) = true ∧
    timeoutGuard (initState 1) 0 = false :=
  ⟨by decide, timeout_callback_never_fires (initState 1) 0 (by decide)⟩

/-! ## C3: error classification vs. the `Stream #` marker -/

/-- Counterexample to C3 as stated: a captured log that contains a
`Stream #` marker but also one of the recognized corrupted-input
substrings. The error classification runs before the `Stream #` check
(useVideoMetadata.ts:279-292), so `extractMetadata` raises despite the
marker being present. -/
theorem parse_raises_despite_stream_marker :
    strIncludes
      (joinLines ["Invalid data found when processing input",
        "Stream #0:0: Video: h264, 1280x720, 24 fps"]) "Stream #" = true ∧
    parseOutcome ["Invalid data found when processing input",
      "Stream #0:0: Video: h264, 1280x720, 24 fps"] = some .corrupted := by
  constructor
  · decide
  · decide

/-- C3 (amended). The parsing stage raises whenever no `Stream #` marker
is present; and it never raises when a `Stream #` marker is present *and*
none of the recognized error substrings (corrupted-input markers, the
missing-decoder pattern) occur in the joined log output. -/
theorem parse_outcome_stream_marker (logs : List String) :
    (strIncludes (joinLines logs) "Stream #" = false →
      (parseOutcome logs).isSome) ∧
    (strIncludes (joinLines logs) "Stream #" = true →
      strIncludes (joinLines logs) "Invalid data found when processing input" = false →
      strIncludes (joinLines logs) "No such file or directory" = false →
      strIncludes (joinLines logs) "Operation not permitted" = false →
      ¬(strIncludes (joinLines logs) "Decoder (codec " = true ∧
        strIncludes (joinLines logs) "not found" = true) →
      parseOutcome logs = none) := by
  constructor
  · intro hns
    unfold parseOutcome
    by_cases he : logs.isEmpty
    · simp [he]
    · simp only [he, if_false]
      unfold classify
      by_cases h1 : strIncludes (joinLines logs)
          "Invalid data found when processing input"
          || strIncludes (joinLines logs) "No such file or directory"
          || strIncludes (joinLines logs) "Operation not permitted"
      · simp [h1]
      · simp only [h1, if_false]
        by_cases h2 : strIncludes (joinLines logs) "Decoder (codec "
            && strIncludes (joinLines logs) "not found"
        · simp [h2]
        · simp [h1, h2, hns]
  · intro hs h1 h2 h3 h4
    have hne : logs.isEmpty = false := by
      cases logs with
      | nil => exact absurd hs (by decide)
      | cons a l => rfl
    unfold parseOutcome classify
    have h4' : (strIncludes (joinLines logs) "Decoder (codec "
        && strIncludes (joinLines logs) "not found") = false := by
      cases hd : strIncludes (joinLines logs) "Decoder (codec " with
      | false => rfl
      | true =>
        cases hf : strIncludes (joinLines logs) "not found" with
        | false => rfl
        | true => exact absurd ⟨hd, hf⟩ h4
    simp [hne, h1, h2, h3, h4', hs]

/-- Witness for C3 (amended): a clean one-stream log is accepted, a
marker-free log is rejected. -/
theorem parse_outcome_stream_marker_witness :
    (parseOutcome ["no markers here"]).isSome ∧
    parseOutcome ["Stream #0:0: Video: h264, 1280x720, 24 fps"] = none :=
  ⟨(parse_outcome_stream_marker ["no markers here"]).1 (by decide),
   (parse_outcome_stream_marker ["Stream #0:0: Video: h264, 1280x720, 24 fps"]).2
     (by decide) (by decide) (by decide) (by decide) (by decide)⟩

/-- C4. A per-file failure is recorded on the failed item alone: after the
dispatch → error-settle → unlock round for the queue head, that item carries
the error with its processing flag cleared, every other item is untouched,
and the coordinator is back in an admissible state (lock free, nothing
current) with the rest of the queue intact. In the 3-file scenario where
the second file has an unsupported extension, items 1 and 3 settle with
metadata, item 2 settles with the validation error, and the aggregate
progress reaches 100. -/
theorem batch_error_isolation :
    (∀ (s : CoordState) (i : Nat) (rest : List Nat) (msg : String),
      s.queue = i :: rest → s.current = none → s.locked = false →
      s.loaded = true →
      ((processOne s (.failure msg)).items.get? i =
        (s.items.get? i).map
          fun a => { a with error := some msg, isProcessing := false }) ∧
      (∀ j, j ≠ i →
        (processOne s (.failure msg)).items.get? j = s.items.get? j) ∧
      (processOne s (.failure msg)).queue = rest ∧
      (processOne s (.failure msg)).current = none ∧
      (processOne s (.failure msg)).locked = false ∧
      (processOne s (.failure msg)).loaded = true) ∧
    ((runBatch (initState 3)
        [outcomeFor "movie1.mkv" 1000, outcomeFor "movie2.xyz" 1000,
         outcomeFor "movie3.avi" 1000]).items =
      [⟨true, false, none⟩,
       ⟨false, false, validateFile "movie2.xyz" 1000⟩,
       ⟨true, false, none⟩] ∧
     (validateFile "movie2.xyz" 1000).isSome ∧
     (runBatch (initState 3)
        [outcomeFor "movie1.mkv" 1000, outcomeFor "movie2.xyz" 1000,
         outcomeFor "movie3.avi" 1000]).progressPct = 100) := by
  constructor
  · intro s i rest msg hq hc hl hld
    have hstate : processOne s (.failure msg) =
        { items := updateAt
            (updateAt s.items i
              fun it => { it with isProcessing := true, error := none }) i
            (fun it => { it with error := some msg, isProcessing := false })
          queue := rest
          current := none
          locked := false
          loaded := s.loaded
          progressPct := overallProgress
            (completedCount (updateAt
              (updateAt s.items i
                fun it => { it with isProcessing := true, error := none }) i
              fun it => { it with error := some msg, isProcessing := false }))
            (updateAt s.items i
              fun it => { it with isProcessing := true, error := none }).length } := by
      unfold processOne doDispatch doSettle doUnlock
      rw [hq]
      simp [hc, hl, hld]
    refine ⟨?_, ?_, ?_, ?_, ?_, ?_⟩
    · rw [hstate]
      simp only [updateAt_get?, if_pos rfl]
      cases s.items.get? i <;> rfl
    · intro j hj
      rw [hstate]
      simp only [updateAt_get?, if_neg hj]
      cases s.items.get? j <;> rfl
    · rw [hstate]
    · rw [hstate]
    · rw [hstate]
    · rw [hstate]; exact hld
  · refine ⟨by decide, by decide, by decide⟩

/-- Witness for C4: the general part instantiated at a fresh one-file
batch. -/
theorem batch_error_isolation_witness :
    ((processOne (initState 1) (.failure "boom")).items.get? 0 =
      ((initState 1).items.get? 0).map
        fun a => { a with error := some "boom", isProcessing := false }) ∧
    (∀ j, j ≠ 0 →
      (processOne (initState 1) (.failure "boom")).items.get? j =
        (initState 1).items.get? j) ∧
    (processOne (initState 1) (.failure "boom")).queue = [] ∧
    (processOne (initState 1) (.failure "boom")).current = none ∧
    (processOne (initState 1) (.failure "boom")).locked = false ∧
    (processOne (initState 1) (.failure "boom")).loaded = true :=
  batch_error_isolation.1 (initState 1) 0 [] "boom" rfl rfl rfl rfl

/-! ## C5: probe byte-range selection for mp4/m4v -/

/-- Counterexample to C5 as stated: for a 200MB mp4 file the probe reads a
single head window (the first 50MB), not three windows — there is no
head/middle/tail selection and no 64MB adaptive window anywhere in the
probe path. -/
theorem mp4_probe_not_three_windows :
    probeSelection "mp4" (200 * 1024 * 1024) = [(0, MP4BOX_PROBE_CHUNK)] ∧
    (probeSelection "mp4" (200 * 1024 * 1024)).length = 1 ∧
    ¬(probeSelection "mp4" (200 * 1024 * 1024)).length = 3 := by
  refine ⟨by decide, by decide, by decide⟩

/-- C5 (amended). For mp4/m4v files the probe reads the whole file when its
size is at or below the 50MB threshold, and otherwise reads the single head
window of the first 50MB. -/
theorem mp4_probe_selection (extension : String) (fileSize : Nat)
    (hext : extension = "mp4" ∨ extension = "m4v") :
    probeSelection extension fileSize =
      [(0, min fileSize MP4BOX_PROBE_CHUNK)] := by
  rcases hext with rfl | rfl <;>
  · unfold probeSelection mp4boxProbeSelection
    rcases Nat.lt_or_ge MP4BOX_PROBE_CHUNK fileSize with h | h
    · rw [if_pos (by decide), if_pos h, Nat.min_eq_right h.le]
    · rw [if_pos (by decide), if_neg (by omega), Nat.min_eq_left h]

/-- Witness for C5 (amended): a 10-byte mp4 is read whole; a 200MB m4v is
read as the 50MB head window. -/
theorem mp4_probe_selection_witness :
    probeSelection "mp4" 10 = [(0, 10)] ∧
    probeSelection "m4v" (200 * 1024 * 1024) = [(0, MP4BOX_PROBE_CHUNK)] :=
  ⟨by have h := mp4_probe_selection "mp4" 10 (Or.inl rfl)
      simpa using h,
   by have h := mp4_probe_selection "m4v" (200 * 1024 * 1024) (Or.inr rfl)
      simpa using h⟩

/-! ## C6: the duration / fps scenario -/

/-- C6. Whenever the duration pattern matched `00:01:30.50` and the video
stream pattern reported 24 fps, the built metadata carries
duration `"90"` (total seconds), movietimems `"90500"` (total milliseconds
including the centiseconds), and movieframes `"2172"`
(`round(ms / 1000 × fps)`). -/
theorem duration_scenario (filename : String) (fileSize : Nat)
    (videoM : Option VideoMatch) (durM : Option DurMatch)
    (bitrateKbM : Option Nat) (audioM : Option AudioMatch)
    (audioBpsM : Option Nat) (subs : List SubMatch) (v : VideoMatch)
    (hd : durM = some ⟨0, 1, 30, 50⟩) (hv : videoM = some v)
    (hfps : v.fps = 24) :
    ((buildMetadata filename fileSize videoM durM bitrateKbM audioM
        audioBpsM subs).format.duration = "90") ∧
    ((buildMetadata filename fileSize videoM durM bitrateKbM audioM
        audioBpsM subs).format.movietimems = "90500") ∧
    ((buildMetadata filename fileSize videoM durM bitrateKbM audioM
        audioBpsM subs).format.movieframes = "2172") := by
  subst hd hv
  refine ⟨rfl, rfl, ?_⟩
  have h3 : (buildMetadata filename fileSize (some v) (some ⟨0, 1, 30, 50⟩)
      bitrateKbM audioM audioBpsM subs).format.movieframes
      = toString (jsRound ((((0 * 3600 + 1 * 60 + 30) * 1000
          + 50 * 10 : Nat) : ℚ) / 1000 * v.fps)) := rfl
  rw [h3, hfps]
  rw [show ((((0 * 3600 + 1 * 60 + 30) * 1000 + 50 * 10 : Nat) : ℚ)
      / 1000 * 24) = ((2172 : ℤ) : ℚ) by norm_num]
  rw [show jsRound ((2172 : ℤ) : ℚ) = 2172 from round_intCast 2172]
  rfl

/-- Witness for C6: a concrete match outcome. -/
theorem duration_scenario_witness :
    ((buildMetadata "clip.mkv" 1000 (some ⟨"h264", 1280, 720, 24⟩)
        (some ⟨0, 1, 30, 50⟩) none none none []).format.duration = "90") ∧
    ((buildMetadata "clip.mkv" 1000 (some ⟨"h264", 1280, 720, 24⟩)
        (some ⟨0, 1, 30, 50⟩) none none none []).format.movietimems
      = "90500") ∧
    ((buildMetadata "clip.mkv" 1000 (some ⟨"h264", 1280, 720, 24⟩)
        (some ⟨0, 1, 30, 50⟩) none none none []).format.movieframes
      = "2172") :=
  duration_scenario "clip.mkv" 1000 _ _ none none none []
    ⟨"h264", 1280, 720, 24⟩ rfl rfl rfl

/-! ## C7: delivery threshold and chunk accounting -/

theorem pumpChunks_sum (fuel : Nat) :
    ∀ rem : Nat, rem ≤ fuel * CHUNK_SIZE → (pumpChunks fuel rem).sum = rem := by
  induction fuel with
  | zero =>
    intro rem h
    have : rem = 0 := by simpa using h
    simp [pumpChunks, this]
  | succ fuel ih =>
    intro rem h
    by_cases h0 : rem = 0
    · simp [pumpChunks, h0]
    · have hgt : 0 < CHUNK_SIZE := by decide
      rw [pumpChunks, if_neg h0]
      simp only [List.sum_cons]
      have hrec : rem - min CHUNK_SIZE rem ≤ fuel * CHUNK_SIZE := by
        rcases Nat.le_total CHUNK_SIZE rem with hcr | hcr
        · rw [Nat.min_eq_left hcr]
          have hmul : (fuel + 1) * CHUNK_SIZE = fuel * CHUNK_SIZE + CHUNK_SIZE := by
            ring
          omega
        · rw [Nat.min_eq_right hcr]
          simp
      rw [ih _ hrec]
      have : min CHUNK_SIZE rem ≤ rem := Nat.min_le_right _ _
      omega

/-- C7. Artifact delivery is decided against the fixed 2 GiB threshold in
both the downloader itself and the `extractStream` call site: 2 GiB − 1
bytes is delivered as a single direct blob, 2 GiB + 1 bytes through the
chunked stream; and for every artifact length the chunk lengths emitted by
the stream's pump loop sum to exactly the original length. -/
theorem artifact_delivery_threshold :
    deliveryMode (2 * 1024 * 1024 * 1024 - 1) = .direct ∧
    extractStreamDeliveryMode (2 * 1024 * 1024 * 1024 - 1) = .direct ∧
    deliveryMode (2 * 1024 * 1024 * 1024 + 1) = .chunked ∧
    extractStreamDeliveryMode (2 * 1024 * 1024 * 1024 + 1) = .chunked ∧
    (∀ len : Nat, (chunkLens len).sum = len) := by
  refine ⟨by decide, by decide, by decide, by decide, ?_⟩
  intro len
  unfold chunkLens
  apply pumpChunks_sum
  have h1 := Nat.div_add_mod len CHUNK_SIZE
  have h2 : len % CHUNK_SIZE < CHUNK_SIZE := Nat.mod_lt _ (by decide)
  have hmul : (len / CHUNK_SIZE + 1) * CHUNK_SIZE =
      CHUNK_SIZE * (len / CHUNK_SIZE) + CHUNK_SIZE := by ring
  omega

/-! ## C8: copy-then-single-fallback export policy -/

/-- C8. For every video/audio stream export, the first backend invocation
is always the stream-copy command; exactly when it raises, one single
re-encode attempt with the fixed parameters follows (constant-quality
H.264 for video, 128k AAC for audio); never more than two invocations are
issued, and a failed export means both attempts raised. -/
theorem export_copy_then_single_fallback (t : StreamType) (streamIndex : Nat)
    (out : String) (execRaises : List String → Bool) :
    ((runStreamExport t streamIndex out execRaises).1.head? =
      some (copyArgs streamIndex out)) ∧
    (execRaises (copyArgs streamIndex out) = false →
      (runStreamExport t streamIndex out execRaises).1 =
        [copyArgs streamIndex out]) ∧
    (execRaises (copyArgs streamIndex out) = true →
      (runStreamExport t streamIndex out execRaises).1 =
        [copyArgs streamIndex out, encodeArgs t streamIndex out]) ∧
    ((runStreamExport t streamIndex out execRaises).1.length ≤ 2) ∧
    ((runStreamExport t streamIndex out execRaises).2 = .failed →
      execRaises (copyArgs streamIndex out) = true ∧
      execRaises (encodeArgs t streamIndex out) = true) ∧
    ("libx264" ∈ encodeArgs .video streamIndex out ∧
      "-crf" ∈ encodeArgs .video streamIndex out ∧
      "23" ∈ encodeArgs .video streamIndex out) ∧
    ("aac" ∈ encodeArgs .audio streamIndex out ∧
      "-b:a" ∈ encodeArgs .audio streamIndex out ∧
      "128k" ∈ encodeArgs .audio streamIndex out) := by
  have hmemv : "libx264" ∈ encodeArgs .video streamIndex out ∧
      "-crf" ∈ encodeArgs .video streamIndex out ∧
      "23" ∈ encodeArgs .video streamIndex out := by
    refine ⟨?_, ?_, ?_⟩ <;> simp [encodeArgs]
  have hmema : "aac" ∈ encodeArgs .audio streamIndex out ∧
      "-b:a" ∈ encodeArgs .audio streamIndex out ∧
      "128k" ∈ encodeArgs .audio streamIndex out := by
    refine ⟨?_, ?_, ?_⟩ <;> simp [encodeArgs]
  cases hc : execRaises (copyArgs streamIndex out) with
  | false =>
    refine ⟨?_, ?_, ?_, ?_, ?_, hmemv, hmema⟩ <;>
      simp [runStreamExport, hc]
  | true =>
    cases he : execRaises (encodeArgs t streamIndex out) with
    | false =>
      refine ⟨?_, ?_, ?_, ?_, ?_, hmemv, hmema⟩ <;>
        simp [runStreamExport, hc, he]
    | true =>
      refine ⟨?_, ?_, ?_, ?_, ?_, hmemv, hmema⟩ <;>
        simp [runStreamExport, hc, he]

/-- Witness for C8: instantiated with an oracle on which every invocation
raises. -/
theorem export_copy_then_single_fallback_witness :
    ((runStreamExport .video 0 "video_stream_0.h264" fun _ => true).1.head? =
      some (copyArgs 0 "video_stream_0.h264")) ∧
    (((fun _ => true) : List String → Bool) (copyArgs 0 "video_stream_0.h264")
        = false →
      (runStreamExport .video 0 "video_stream_0.h264" fun _ => true).1 =
        [copyArgs 0 "video_stream_0.h264"]) ∧
    (((fun _ => true) : List String → Bool) (copyArgs 0 "video_stream_0.h264")
        = true →
      (runStreamExport .video 0 "video_stream_0.h264" fun _ => true).1 =
        [copyArgs 0 "video_stream_0.h264",
         encodeArgs .video 0 "video_stream_0.h264"]) ∧
    ((runStreamExport .video 0 "video_stream_0.h264"
        fun _ => true).1.length ≤ 2) ∧
    ((runStreamExport .video 0 "video_stream_0.h264" fun _ => true).2 =
        .failed →
      ((fun _ => true) : List String → Bool)
          (copyArgs 0 "video_stream_0.h264") = true ∧
      ((fun _ => true) : List String → Bool)
          (encodeArgs .video 0 "video_stream_0.h264") = true) ∧
    ("libx264" ∈ encodeArgs .video 0 "video_stream_0.h264" ∧
      "-crf" ∈ encodeArgs .video 0 "video_stream_0.h264" ∧
      "23" ∈ encodeArgs .video 0 "video_stream_0.h264") ∧
    ("aac" ∈ encodeArgs .audio 0 "video_stream_0.h264" ∧
      "-b:a" ∈ encodeArgs .audio 0 "video_stream_0.h264" ∧
      "128k" ∈ encodeArgs .audio 0 "video_stream_0.h264") :=
  export_copy_then_single_fallback .video 0 "video_stream_0.h264" fun _ => true

/-! ## C9: the stream list always leads with one video and one audio
descriptor -/

/-- C9. Whatever the pattern extraction produced — including no video
match or no audio match at all — the built stream list starts with exactly
one video descriptor at index 0 and one audio descriptor at index 1, every
later entry being a subtitle descriptor; and the undetected fields are
filled with the fixed defaults (width 1280, height 720, pix_fmt
`"yuv420p"`, video bit_rate `"1500000"`, 2 channels, sample_rate
`"48000"`, audio bit_rate `"128000"`). -/
theorem streams_lead_with_video_audio (filename : String) (fileSize : Nat)
    (videoM : Option VideoMatch) (durM : Option DurMatch)
    (bitrateKbM : Option Nat) (audioM : Option AudioMatch)
    (audioBpsM : Option Nat) (subs : List SubMatch) (md : VideoMetadata)
    (hmd : md = buildMetadata filename fileSize videoM durM bitrateKbM
      audioM audioBpsM subs) :
    ((md.streams.map fun d => d.codec_type).take 2 = ["video", "audio"]) ∧
    (∀ d ∈ md.streams.drop 2, d.codec_type = "subtitle") ∧
    (videoM = none → md.streams.get? 0 = some
      { codec_type := "video", codec_name := "unknown",
        width := some 1280, height := some 720, pix_fmt := some "yuv420p",
        bit_rate := some "1500000", index := some 0 }) ∧
    (audioM = none → audioBpsM = none → md.streams.get? 1 = some
      { codec_type := "audio", codec_name := "unknown", channels := some 2,
        sample_rate := some "48000", bit_rate := some "128000",
        index := some 1 }) := by
  subst hmd
  refine ⟨rfl, ?_, ?_, ?_⟩
  · intro d hd
    have hdrop : (buildMetadata filename fileSize videoM durM bitrateKbM
        audioM audioBpsM subs).streams.drop 2 = subs.map subDesc := rfl
    rw [hdrop] at hd
    obtain ⟨s, _, rfl⟩ := List.mem_map.1 hd
    rfl
  · intro hv
    subst hv
    rfl
  · intro ha hb
    subst ha hb
    rfl

/-- Witness for C9: instantiated at an audio-only match outcome (no video
stream detected, no audio bit-rate metadata). -/
theorem streams_lead_with_video_audio_witness :
    (((buildMetadata "song.mp3" 900 none none none
        (some ⟨"mp3", "44100"⟩) none []).streams.map
          fun d => d.codec_type).take 2 = ["video", "audio"]) ∧
    (∀ d ∈ (buildMetadata "song.mp3" 900 none none none
        (some ⟨"mp3", "44100"⟩) none []).streams.drop 2,
      d.codec_type = "subtitle") ∧
    ((none : Option VideoMatch) = none →
      (buildMetadata "song.mp3" 900 none none none
        (some ⟨"mp3", "44100"⟩) none []).streams.get? 0 = some
        { codec_type := "video", codec_name := "unknown",
          width := some 1280, height := some 720, pix_fmt := some "yuv420p",
          bit_rate := some "1500000", index := some 0 }) ∧
    ((some ⟨"mp3", "44100"⟩ : Option AudioMatch) = none →
      (none : Option Nat) = none →
      (buildMetadata "song.mp3" 900 none none none
        (some ⟨"mp3", "44100"⟩) none []).streams.get? 1 = some
        { codec_type := "audio", codec_name := "unknown", channels := some 2,
          sample_rate := some "48000", bit_rate := some "128000",
          index := some 1 }) :=
  streams_lead_with_video_audio "song.mp3" 900 none none none
    (some ⟨"mp3", "44100"⟩) none [] _ rfl

/-! ## C10: subtitle export indexes the filtered track list -/

/-- C10. The metadata listing labels a text track with its position `n`
among all enumerated tracks, but `exportSubtitle` interprets the same
number as a position within the filtered text-track list; as soon as any
non-text (video or audio) track precedes the text track, those two
addressing schemes disagree: the export selection at the displayed index
does not return the displayed track. -/
theorem subtitle_index_mismatch (tracks : List MTrack) (n : Nat)
    (hn : n < tracks.length)
    (hids : (tracks.map fun t => t.id).Nodup)
    (htext : (tracks.get ⟨n, hn⟩).type = "text")
    (hpre : ∃ m, ∃ hm : m < n, (tracks.get ⟨m, hm.trans hn⟩).type ≠ "text") :
    n ∈ listedSubtitleIndices tracks ∧
    exportSubtitleSelect tracks n ≠ some (tracks.get ⟨n, hn⟩) := by
  have hnodup : tracks.Nodup := List.Nodup.of_map _ hids
  constructor
  · unfold listedSubtitleIndices
    refine List.mem_map.2 ⟨(n, tracks.get ⟨n, hn⟩), ?_, rfl⟩
    refine List.mem_filter.2 ⟨?_, by simpa using htext⟩
    exact List.mk_mem_enum_iff_getElem?.2 (by simp [List.getElem?_eq_getElem hn])
  · intro habs
    have e1 : textTracks tracks =
        textTracks (tracks.take n) ++ textTracks (tracks.drop n) := by
      conv_lhs => rw [show tracks = tracks.take n ++ tracks.drop n from
        (List.take_append_drop n tracks).symm]
      exact List.filter_append _ _
    have e2 : tracks.drop n = tracks.get ⟨n, hn⟩ :: tracks.drop (n + 1) :=
      List.drop_eq_getElem_cons hn
    have e3 : textTracks (tracks.get ⟨n, hn⟩ :: tracks.drop (n + 1)) =
        tracks.get ⟨n, hn⟩ :: textTracks (tracks.drop (n + 1)) := by
      unfold textTracks
      rw [List.filter_cons_of_pos (by simpa using htext)]
    have etot : textTracks tracks =
        textTracks (tracks.take n)
          ++ tracks.get ⟨n, hn⟩ :: textTracks (tracks.drop (n + 1)) := by
      rw [e1, e2, e3]
    -- the displayed track sits at position k < n of the filtered list
    have hklen : (textTracks (tracks.take n)).length ≤ (tracks.take n).length :=
      List.length_filter_le _ _
    have htklen : (tracks.take n).length = n := by
      rw [List.length_take]
      omega
    have hkn : (textTracks (tracks.take n)).length < n := by
      rcases Nat.lt_or_ge (textTracks (tracks.take n)).length
          (tracks.take n).length with h | h
      · omega
      · exfalso
        have heq : (textTracks (tracks.take n)).length = (tracks.take n).length := by
          omega
        have hall := List.filter_length_eq_length.1 heq
        obtain ⟨m, hm, hmt⟩ := hpre
        have hmem : tracks.get ⟨m, hm.trans hn⟩ ∈ tracks.take n := by
          have : (tracks.take n).get ⟨m, by omega⟩ = tracks.get ⟨m, hm.trans hn⟩ := by
            simp [List.get_take]
          rw [← this]
          exact List.get_mem _ m (by omega)
        exact hmt (by simpa using hall _ hmem)
    have hget_k : (textTracks tracks).get? (textTracks (tracks.take n)).length =
        some (tracks.get ⟨n, hn⟩) := by
      rw [etot, List.get?_append_right (le_refl _)]
      simp
    have hset : exportSubtitleSelect tracks n = (textTracks tracks).get? n := rfl
    rw [hset] at habs
    have hlt : (textTracks (tracks.take n)).length < (textTracks tracks).length := by
      rw [etot]
      simp only [List.length_append, List.length_cons]
      omega
    have hnd : (textTracks tracks).Nodup := List.Nodup.filter _ hnodup
    have : (textTracks (tracks.take n)).length = n := by
      apply List.getElem?_inj hlt hnd
      rw [← List.get?_eq_getElem?, ← List.get?_eq_getElem?, hget_k, habs]
    omega

/-- Witness for C10: with one video track before one text track, the
listing shows index 1 for the text track, but the export selection at 1 is
out of the filtered list entirely. -/
theorem subtitle_index_mismatch_witness :
    1 ∈ listedSubtitleIndices [⟨1, "video"⟩, ⟨2, "text"⟩] ∧
    exportSubtitleSelect [⟨1, "video"⟩, ⟨2, "text"⟩] 1 ≠
      some (([⟨1, "video"⟩, ⟨2, "text"⟩] : List MTrack).get ⟨1, by decide⟩) :=
  subtitle_index_mismatch [⟨1, "video"⟩, ⟨2, "text"⟩] 1 (by decide) (by decide)
    (by decide) ⟨0, Nat.zero_lt_one, by decide⟩

end VideoMeta
